import Mathlib

/-!
Shallow embedding of the Visionerds Leave Portal leave-request ledger
(`services/db.ts` together with the types of `types.ts`): the data model,
the `submitLeaveRequest` / `getPendingApprovals` / `approveLeave` /
`rejectLeave` operations, and the balance-accounting properties stated in
the specification.

The two Supabase tables (`users`, `leave_history`) are modelled as lists of
rows; `.eq(...).single()` reads become `List.find?`, filtered reads become
`List.filter`, `.order('timestamp', { ascending: false })` becomes a merge
sort on the timestamp, inserts append a row and updates map over the rows.
Leave amounts are JS numbers used at half-day granularity; they are
modelled as rationals, on which every operation of the source (addition,
subtraction, comparison) is exact.
-/

/-- Leave categories (`types.ts`, `LeaveType`). -/
inductive LeaveType
  | casual
  | sick
  | annual
deriving DecidableEq, Fintype, Repr

/-- Lifecycle states of a leave record (`types.ts`, `LeaveStatus`). -/
inductive LeaveStatus
  | pending
  | approved
  | rejected
deriving DecidableEq, Repr

/-- A leave record as the client hands it to `submitLeaveRequest`
(`types.ts`, `LeaveRecord`). -/
structure LeaveRecord where
  id : String
  date : String
  amount : ℚ
  type : LeaveType
  timestamp : Nat
  status : LeaveStatus := .pending
  approved_by : Option String := none
  approved_at : Option String := none
  rejection_reason : Option String := none
deriving DecidableEq, Repr

/-- A row of the `leave_history` table: the submitted fields plus the
owning `user_id` column. -/
structure LeaveRow where
  id : String
  user_id : String
  date : String
  amount : ℚ
  type : LeaveType
  timestamp : Nat
  status : LeaveStatus
  approved_by : Option String := none
  approved_at : Option String := none
  rejection_reason : Option String := none
deriving DecidableEq, Repr

/-- A row of the `users` table (the columns the ledger reads or writes). -/
structure DbUser where
  id : String
  name : String
  email : String
  casual_balance : ℚ
  sick_balance : ℚ
  annual_balance : ℚ
  reporting_to : Option String := none
deriving DecidableEq, Repr

/-- Reading the balance column selected by `` `${type}_balance` ``. -/
def DbUser.balance (u : DbUser) : LeaveType → ℚ
  | .casual => u.casual_balance
  | .sick => u.sick_balance
  | .annual => u.annual_balance

/-- Writing the balance column selected by `` `${type}_balance` ``. -/
def DbUser.setBalance (u : DbUser) (t : LeaveType) (v : ℚ) : DbUser :=
  match t with
  | .casual => { u with casual_balance := v }
  | .sick => { u with sick_balance := v }
  | .annual => { u with annual_balance := v }

/-- The state of the two tables the ledger touches. -/
structure LeaveDb where
  users : List DbUser
  leaves : List LeaveRow
deriving DecidableEq, Repr

/-- Sum of the still-pending amounts of one user and type; this is the
`totalPending` computed at `services/db.ts` lines 125-135 from the rows
with `.eq('user_id', userId).eq('type', leave.type).eq('status', 'pending')`. -/
def totalPending (s : LeaveDb) (userId : String) (t : LeaveType) : ℚ :=
  ((s.leaves.filter fun l =>
      l.user_id == userId && l.type == t && l.status == LeaveStatus.pending).map
    (fun l => l.amount)).sum

/-- Outcome of `submitLeaveRequest`: returning `false` because the user row
is missing, throwing the `Insufficient ... leave balance` error (carrying
the computed available / total / pending figures of the message), or
returning `true` after inserting the row. -/
inductive SubmitResult
  | ok
  | userNotFound
  | insufficientBalance (t : LeaveType) (available total pending : ℚ)
deriving DecidableEq, Repr

/-- `submitLeaveRequest` (`services/db.ts` lines 114-162): look the user
up, recompute the pending total of the requested type, refuse when
`availableBalance < leave.amount`, otherwise insert the row with status
`pending` and leave the `users` table untouched. -/
def submitLeaveRequest (s : LeaveDb) (userId : String) (leave : LeaveRecord) :
    SubmitResult × LeaveDb :=
  match s.users.find? (fun u => u.id == userId) with
  | none => (.userNotFound, s)
  | some user =>
    let totPending := totalPending s userId leave.type
    let currentBalance := user.balance leave.type
    let availBalance := currentBalance - totPending
    if availBalance < leave.amount then
      (.insufficientBalance leave.type availBalance currentBalance totPending, s)
    else
      (.ok, { s with
        leaves := s.leaves ++ [{
          id := leave.id
          user_id := userId
          date := leave.date
          amount := leave.amount
          type := leave.type
          timestamp := leave.timestamp
          status := .pending }] })

/-- One element of the `getPendingApprovals` result: the leave row spread
together with the reportee's name and email. -/
structure PendingLeaveRequest where
  row : LeaveRow
  user_name : String
  user_email : String
deriving DecidableEq, Repr

/-- `getPendingApprovals` (`services/db.ts` lines 165-197): the users whose
`reporting_to` equals the manager, then their pending rows ordered by
timestamp descending, each joined with the reportee's name and email. -/
def getPendingApprovals (s : LeaveDb) (managerId : String) :
    List PendingLeaveRequest :=
  let reportees := s.users.filter (fun u => u.reporting_to == some managerId)
  if reportees.isEmpty then []
  else
    let reporteeIds := reportees.map (fun r => r.id)
    let pendingLeaves :=
      (s.leaves.filter (fun l =>
          reporteeIds.contains l.user_id && l.status == LeaveStatus.pending)).mergeSort
        (fun a b => Nat.ble b.timestamp a.timestamp)
    pendingLeaves.map (fun leave =>
      let user := reportees.find? (fun r => r.id == leave.user_id)
      { row := leave
        user_name := (user.map (fun u => u.name)).getD "Unknown"
        user_email := (user.map (fun u => u.email)).getD "" })

/-- Outcome of `approveLeave`, one constructor per `error` string of
`services/db.ts` lines 204-264. -/
inductive ApproveResult
  | ok
  | notFound
  | alreadyProcessed
  | userNotFound
  | insufficientBalance
  | failedUpdateBalance
  | failedUpdateStatus
deriving DecidableEq, Repr

/-- `approveLeave` (`services/db.ts` lines 200-268), with the two store
writes allowed to fail: `failBalanceWrite` / `failStatusWrite` say whether
the `users` update resp. the `leave_history` update returns an error (a
failed write leaves its table unchanged, exactly as the source observes the
store).  `now` stands for the `new Date().toISOString()` stamp. -/
def approveLeaveWr (failBalanceWrite failStatusWrite : Bool) (s : LeaveDb)
    (leaveId approverId now : String) : ApproveResult × LeaveDb :=
  match s.leaves.find? (fun l => l.id == leaveId) with
  | none => (.notFound, s)
  | some leave =>
    if leave.status ≠ LeaveStatus.pending then (.alreadyProcessed, s)
    else
      match s.users.find? (fun u => u.id == leave.user_id) with
      | none => (.userNotFound, s)
      | some user =>
        let currentBalance := user.balance leave.type
        if currentBalance < leave.amount then (.insufficientBalance, s)
        else if failBalanceWrite then (.failedUpdateBalance, s)
        else
          let newBalance := currentBalance - leave.amount
          let s1 : LeaveDb := { s with
            users := s.users.map (fun u =>
              if u.id == leave.user_id then u.setBalance leave.type newBalance
              else u) }
          if failStatusWrite then (.failedUpdateStatus, s1)
          else
            (.ok, { s1 with
              leaves := s1.leaves.map (fun l =>
                if l.id == leaveId then
                  { l with
                    status := .approved
                    approved_by := some approverId
                    approved_at := some now }
                else l) })

/-- `approveLeave` against a store whose writes succeed. -/
def approveLeave (s : LeaveDb) (leaveId approverId now : String) :
    ApproveResult × LeaveDb :=
  approveLeaveWr false false s leaveId approverId now

/-- Outcome of `rejectLeave` (`services/db.ts` lines 271-311). -/
inductive RejectResult
  | ok
  | notFound
  | alreadyProcessed
deriving DecidableEq, Repr

/-- `rejectLeave` (`services/db.ts` lines 271-311): same not-found /
already-processed checks as approval, then set the row to `rejected` with
approver, stamp and optional reason; the `users` table is never touched. -/
def rejectLeave (s : LeaveDb) (leaveId approverId : String)
    (reason : Option String) (now : String) : RejectResult × LeaveDb :=
  match s.leaves.find? (fun l => l.id == leaveId) with
  | none => (.notFound, s)
  | some leave =>
    if leave.status ≠ LeaveStatus.pending then (.alreadyProcessed, s)
    else
      (.ok, { s with
        leaves := s.leaves.map (fun l =>
          if l.id == leaveId then
            { l with
              status := .rejected
              approved_by := some approverId
              approved_at := some now
              rejection_reason := reason }
          else l) })

/-- Effective available balance of a user and type: stored balance minus
the still-pending amounts (spec glossary, `Available balance`). -/
def availableBalance (s : LeaveDb) (u : DbUser) (t : LeaveType) : ℚ :=
  u.balance t - totalPending s u.id t

/-- The spec's balance invariant: every user's effective available balance
of every type is nonnegative. -/
def AvailNonneg (s : LeaveDb) : Prop :=
  ∀ u ∈ s.users, ∀ t : LeaveType, 0 ≤ availableBalance s u t

/-- Every pending row carries a nonnegative amount. -/
def PendingNonneg (s : LeaveDb) : Prop :=
  ∀ l ∈ s.leaves, l.status = LeaveStatus.pending → 0 ≤ l.amount

/-- Every pending row carries a strictly positive amount. -/
def PendingPos (s : LeaveDb) : Prop :=
  ∀ l ∈ s.leaves, l.status = LeaveStatus.pending → 0 < l.amount

/-- The `users` table keys its rows by a primary-key id. -/
def UsersNodup (s : LeaveDb) : Prop :=
  (s.users.map (fun u => u.id)).Nodup

instance (s : LeaveDb) : Decidable (AvailNonneg s) :=
  inferInstanceAs (Decidable (∀ u ∈ s.users, ∀ t : LeaveType, 0 ≤ availableBalance s u t))

instance (s : LeaveDb) : Decidable (PendingNonneg s) :=
  inferInstanceAs (Decidable (∀ l ∈ s.leaves, l.status = LeaveStatus.pending → 0 ≤ l.amount))

instance (s : LeaveDb) : Decidable (PendingPos s) :=
  inferInstanceAs (Decidable (∀ l ∈ s.leaves, l.status = LeaveStatus.pending → 0 < l.amount))

instance (s : LeaveDb) : Decidable (UsersNodup s) :=
  inferInstanceAs (Decidable ((s.users.map (fun u : DbUser => u.id)).Nodup))

/-- One sequentially applied client operation of the ledger: a submit,
approve or reject call with arbitrary arguments. -/
inductive LedgerStep : LeaveDb → LeaveDb → Prop
  | submit (s : LeaveDb) (userId : String) (leave : LeaveRecord) :
      LedgerStep s (submitLeaveRequest s userId leave).2
  | approve (s : LeaveDb) (leaveId approverId now : String) :
      LedgerStep s (approveLeave s leaveId approverId now).2
  | reject (s : LeaveDb) (leaveId approverId : String) (reason : Option String)
      (now : String) : LedgerStep s (rejectLeave s leaveId approverId reason now).2

/-- Ledger operations restricted to nonnegative submitted amounts (the
spec's `amount > 0` precondition on submission, weakened to what the
invariant proof needs). -/
inductive LedgerStepNN : LeaveDb → LeaveDb → Prop
  | submit (s : LeaveDb) (userId : String) (leave : LeaveRecord)
      (h : 0 ≤ leave.amount) :
      LedgerStepNN s (submitLeaveRequest s userId leave).2
  | approve (s : LeaveDb) (leaveId approverId now : String) :
      LedgerStepNN s (approveLeave s leaveId approverId now).2
  | reject (s : LeaveDb) (leaveId approverId : String) (reason : Option String)
      (now : String) : LedgerStepNN s (rejectLeave s leaveId approverId reason now).2

/-- Any finite sequence of sequentially applied ledger operations. -/
def LedgerReaches : LeaveDb → LeaveDb → Prop :=
  Relation.ReflTransGen LedgerStep

/-- Any finite sequence of ledger operations with nonnegative submitted
amounts. -/
def LedgerReachesNN : LeaveDb → LeaveDb → Prop :=
  Relation.ReflTransGen LedgerStepNN

/-! ### Small facts about the embedded operations -/

theorem DbUser.id_setBalance (u : DbUser) (t : LeaveType) (v : ℚ) :
    (u.setBalance t v).id = u.id := by
  cases t <;> rfl

theorem DbUser.balance_setBalance (u : DbUser) (t t' : LeaveType) (v : ℚ) :
    (u.setBalance t v).balance t' = if t' = t then v else u.balance t' := by
  cases t <;> cases t' <;> simp [DbUser.setBalance, DbUser.balance]

theorem find?_map_of_key {α : Type} {p : α → Bool} {g : α → α}
    (hg : ∀ x, p (g x) = p x) (l : List α) :
    (l.map g).find? p = (l.find? p).map g := by
  induction l with
  | nil => rfl
  | cons x xs ih =>
    cases h : p x with
    | true =>
      rw [List.map_cons, List.find?_cons_of_pos _ ((hg x).trans h),
        List.find?_cons_of_pos _ h, Option.map_some']
    | false =>
      rw [List.map_cons, List.find?_cons_of_neg _ (by simp [hg x, h]),
        List.find?_cons_of_neg _ (by simp [h]), ih]

/-- Updating rows so that amounts are kept and no row newly enters the
filter can only shrink a nonnegative filtered sum. -/
theorem sum_filter_map_mono {α : Type} (f : α → ℚ) (g : α → α) (p : α → Bool)
    (l : List α)
    (hf : ∀ x ∈ l, p (g x) = true → f (g x) = f x)
    (hp : ∀ x ∈ l, p (g x) = true → p x = true)
    (hnn : ∀ x ∈ l, p x = true → 0 ≤ f x) :
    (((l.map g).filter p).map f).sum ≤ ((l.filter p).map f).sum := by
  induction l with
  | nil => simp
  | cons x xs ih =>
    have ih' := ih (fun a ha => hf a (List.mem_cons_of_mem _ ha))
      (fun a ha => hp a (List.mem_cons_of_mem _ ha))
      (fun a ha => hnn a (List.mem_cons_of_mem _ ha))
    rw [List.map_cons]
    cases hgx : p (g x) with
    | true =>
      have hx : p x = true := hp x (List.mem_cons_self x xs) hgx
      rw [List.filter_cons_of_pos hgx, List.filter_cons_of_pos hx,
        List.map_cons, List.map_cons, List.sum_cons, List.sum_cons,
        hf x (List.mem_cons_self x xs) hgx]
      exact add_le_add_left ih' _
    | false =>
      rw [List.filter_cons_of_neg (by simp [hgx])]
      cases hx : p x with
      | true =>
        rw [List.filter_cons_of_pos hx, List.map_cons, List.sum_cons]
        have h0 := hnn x (List.mem_cons_self x xs) hx
        linarith
      | false =>
        rw [List.filter_cons_of_neg (by simp [hx])]
        exact ih'

/-- As `sum_filter_map_mono`, and moreover some occurrence of a row `r`
is dropped from the filter: the sum shrinks by at least `f r`. -/
theorem sum_filter_map_le_sub {α : Type} (f : α → ℚ) (g : α → α) (p : α → Bool)
    (l : List α)
    (hf : ∀ x ∈ l, p (g x) = true → f (g x) = f x)
    (hp : ∀ x ∈ l, p (g x) = true → p x = true)
    (hnn : ∀ x ∈ l, p x = true → 0 ≤ f x)
    (r : α) (hr : r ∈ l) (hpr : p r = true) (hgr : p (g r) = false) :
    (((l.map g).filter p).map f).sum ≤ ((l.filter p).map f).sum - f r := by
  induction l with
  | nil => cases hr
  | cons x xs ih =>
    have hftl : ∀ a ∈ xs, p (g a) = true → f (g a) = f a :=
      fun a ha => hf a (List.mem_cons_of_mem _ ha)
    have hptl : ∀ a ∈ xs, p (g a) = true → p a = true :=
      fun a ha => hp a (List.mem_cons_of_mem _ ha)
    have hnntl : ∀ a ∈ xs, p a = true → 0 ≤ f a :=
      fun a ha => hnn a (List.mem_cons_of_mem _ ha)
    rw [List.map_cons]
    rcases List.mem_cons.1 hr with rfl | hr'
    · rw [List.filter_cons_of_neg (by simp [hgr]), List.filter_cons_of_pos hpr,
        List.map_cons, List.sum_cons]
      have hmono := sum_filter_map_mono f g p xs hftl hptl hnntl
      linarith
    · have ih' := ih hftl hptl hnntl hr'
      cases hgx : p (g x) with
      | true =>
        have hx : p x = true := hp x (List.mem_cons_self x xs) hgx
        rw [List.filter_cons_of_pos hgx, List.filter_cons_of_pos hx,
          List.map_cons, List.map_cons, List.sum_cons, List.sum_cons,
          hf x (List.mem_cons_self x xs) hgx]
        linarith
      | false =>
        rw [List.filter_cons_of_neg (by simp [hgx])]
        cases hx : p x with
        | true =>
          rw [List.filter_cons_of_pos hx, List.map_cons, List.sum_cons]
          have h0 := hnn x (List.mem_cons_self x xs) hx
          linarith
        | false =>
          rw [List.filter_cons_of_neg (by simp [hx])]
          exact ih'

/-! ### State dichotomies: each mutating operation either leaves the store
unchanged or passed its guard and performed its writes. -/

/-- The inserted `leave_history` row of a successful submission. -/
def submittedRow (userId : String) (leave : LeaveRecord) : LeaveRow :=
  { id := leave.id
    user_id := userId
    date := leave.date
    amount := leave.amount
    type := leave.type
    timestamp := leave.timestamp
    status := .pending }

theorem submit_state (s : LeaveDb) (uid : String) (lv : LeaveRecord) :
    ((submitLeaveRequest s uid lv).1 ≠ SubmitResult.ok ∧
      (submitLeaveRequest s uid lv).2 = s) ∨
    (∃ user, s.users.find? (fun u => u.id == uid) = some user ∧
      lv.amount ≤ user.balance lv.type - totalPending s uid lv.type ∧
      (submitLeaveRequest s uid lv).1 = .ok ∧
      (submitLeaveRequest s uid lv).2 =
        { s with leaves := s.leaves ++ [submittedRow uid lv] }) := by
  unfold submitLeaveRequest
  cases hfind : s.users.find? (fun u => u.id == uid) with
  | none => exact Or.inl ⟨by simp, rfl⟩
  | some user =>
    by_cases hlt : user.balance lv.type - totalPending s uid lv.type < lv.amount
    · exact Or.inl ⟨by simp [hlt], by simp [hlt]⟩
    · exact Or.inr ⟨user, rfl, le_of_not_lt hlt, by simp [hlt], by simp [hlt, submittedRow]⟩

/-- The updated `leave_history` row of a successful approval. -/
def approvedRow (aid now : String) (l : LeaveRow) : LeaveRow :=
  { l with status := .approved, approved_by := some aid, approved_at := some now }

theorem approve_state (s : LeaveDb) (lid aid now : String) :
    (approveLeave s lid aid now).2 = s ∨
    (∃ r user, s.leaves.find? (fun l => l.id == lid) = some r ∧
      r.status = LeaveStatus.pending ∧
      s.users.find? (fun u => u.id == r.user_id) = some user ∧
      r.amount ≤ user.balance r.type ∧
      (approveLeave s lid aid now).1 = .ok ∧
      (approveLeave s lid aid now).2 = { s with
        users := s.users.map (fun u =>
          if u.id = r.user_id then
            u.setBalance r.type (user.balance r.type - r.amount)
          else u)
        leaves := s.leaves.map (fun l =>
          if l.id = lid then approvedRow aid now l else l) }) := by
  unfold approveLeave approveLeaveWr
  cases hfind : s.leaves.find? (fun l => l.id == lid) with
  | none => exact Or.inl rfl
  | some r =>
    by_cases hst : r.status = LeaveStatus.pending
    · cases hfindu : s.users.find? (fun u => u.id == r.user_id) with
      | none => exact Or.inl (by simp [hst, hfindu])
      | some user =>
        by_cases hlt : user.balance r.type < r.amount
        · exact Or.inl (by simp [hst, hfindu, hlt])
        · refine Or.inr ⟨r, user, rfl, hst, hfindu, le_of_not_lt hlt, ?_, ?_⟩
          · simp [hst, hfindu, hlt]
          · simp [hst, hfindu, hlt, approvedRow]
    · exact Or.inl (by simp [hst])

/-- The updated `leave_history` row of a successful rejection. -/
def rejectedRow (aid : String) (reason : Option String) (now : String)
    (l : LeaveRow) : LeaveRow :=
  { l with status := .rejected, approved_by := some aid, approved_at := some now,
           rejection_reason := reason }

theorem reject_state (s : LeaveDb) (lid aid : String) (reason : Option String)
    (now : String) :
    (rejectLeave s lid aid reason now).2 = s ∨
    (∃ r, s.leaves.find? (fun l => l.id == lid) = some r ∧
      r.status = LeaveStatus.pending ∧
      (rejectLeave s lid aid reason now).1 = .ok ∧
      (rejectLeave s lid aid reason now).2 = { s with
        leaves := s.leaves.map (fun l =>
          if l.id = lid then rejectedRow aid reason now l else l) }) := by
  unfold rejectLeave
  cases hfind : s.leaves.find? (fun l => l.id == lid) with
  | none => exact Or.inl rfl
  | some r =>
    by_cases hst : r.status = LeaveStatus.pending
    · exact Or.inr ⟨r, rfl, hst, by simp [hst], by simp [hst, rejectedRow]⟩
    · exact Or.inl (by simp [hst])

/-- `rejectLeave` never touches the `users` table. -/
theorem rejectLeave_users (s : LeaveDb) (lid aid : String)
    (reason : Option String) (now : String) :
    (rejectLeave s lid aid reason now).2.users = s.users := by
  unfold rejectLeave
  cases hfind : s.leaves.find? (fun l => l.id == lid) with
  | none => rfl
  | some r =>
    by_cases hst : r.status = LeaveStatus.pending <;> simp [hst]

/-! ### Preservation of the balance invariant -/

/-- The data invariants of the ledger state preserved by every operation:
primary-key users, nonnegative pending amounts, nonnegative effective
available balances. -/
def GoodLedger (s : LeaveDb) : Prop :=
  UsersNodup s ∧ PendingNonneg s ∧ AvailNonneg s

instance (s : LeaveDb) : Decidable (GoodLedger s) :=
  inferInstanceAs (Decidable (UsersNodup s ∧ PendingNonneg s ∧ AvailNonneg s))

theorem totalPending_append_row (s : LeaveDb) (row : LeaveRow) (uid' : String)
    (t : LeaveType) :
    totalPending { s with leaves := s.leaves ++ [row] } uid' t =
      totalPending s uid' t +
        (if row.user_id = uid' ∧ row.type = t ∧ row.status = LeaveStatus.pending
         then row.amount else 0) := by
  unfold totalPending
  simp only [List.filter_append, List.map_append, List.sum_append]
  congr 1
  by_cases hc : row.user_id = uid' ∧ row.type = t ∧ row.status = LeaveStatus.pending
  · obtain ⟨h4, h5, h6⟩ := hc
    simp [h4, h5, h6]
  · rw [if_neg hc]
    have hnil : List.filter
        (fun l => l.user_id == uid' && l.type == t && l.status == LeaveStatus.pending)
        [row] = [] := by
      rw [List.filter_eq_nil_iff]
      intro a ha
      rcases List.mem_singleton.1 ha with rfl
      simp only [Bool.and_eq_true, beq_iff_eq]
      rintro ⟨⟨ha1, ha2⟩, ha3⟩
      exact hc ⟨ha1, ha2, ha3⟩
    rw [hnil]
    simp

theorem submit_preserves (s : LeaveDb) (uid : String) (lv : LeaveRecord)
    (hnn : 0 ≤ lv.amount) (h : GoodLedger s) :
    GoodLedger (submitLeaveRequest s uid lv).2 := by
  obtain ⟨h1, h2, h3⟩ := h
  rcases submit_state s uid lv with ⟨-, heq⟩ | ⟨user, hfind, hle, -, heq⟩
  · rw [heq]; exact ⟨h1, h2, h3⟩
  · rw [heq]
    have humem : user ∈ s.users := List.mem_of_find?_eq_some hfind
    have huid : user.id = uid := by simpa using List.find?_some hfind
    refine ⟨h1, ?_, ?_⟩
    · intro l hl hlp
      rcases List.mem_append.1 hl with hl' | hl'
      · exact h2 l hl' hlp
      · rcases List.mem_singleton.1 hl' with rfl
        exact hnn
    · intro u hu t
      have havail := h3 u hu t
      unfold availableBalance at havail ⊢
      rw [totalPending_append_row]
      by_cases hc : (submittedRow uid lv).user_id = u.id ∧
          (submittedRow uid lv).type = t ∧
          (submittedRow uid lv).status = LeaveStatus.pending
      · rw [if_pos hc]
        obtain ⟨hcu, hct, -⟩ := hc
        have hcu' : uid = u.id := hcu
        have hct' : lv.type = t := hct
        have hueq : u = user := List.inj_on_of_nodup_map h1 hu humem (by rw [huid, hcu'])
        subst hueq
        rw [← hcu', ← hct'] at havail ⊢
        have hamt : (submittedRow uid lv).amount = lv.amount := rfl
        rw [hamt]
        linarith [hle]
      · rw [if_neg hc]
        linarith

theorem approve_preserves (s : LeaveDb) (lid aid now : String)
    (h : GoodLedger s) : GoodLedger (approveLeave s lid aid now).2 := by
  obtain ⟨h1, h2, h3⟩ := h
  rcases approve_state s lid aid now with heq | ⟨r, user, hfind, hst, hfindu, hle, -, heq⟩
  · rw [heq]; exact ⟨h1, h2, h3⟩
  · rw [heq]
    have hrmem : r ∈ s.leaves := List.mem_of_find?_eq_some hfind
    have hrid : r.id = lid := by simpa using List.find?_some hfind
    have humem : user ∈ s.users := List.mem_of_find?_eq_some hfindu
    have huid : user.id = r.user_id := by simpa using List.find?_some hfindu
    refine ⟨?_, ?_, ?_⟩
    · unfold UsersNodup
      have hmap : ((s.users.map (fun u =>
          if u.id = r.user_id then
            u.setBalance r.type (user.balance r.type - r.amount) else u)).map
            (fun u => u.id)) = s.users.map (fun u => u.id) := by
        rw [List.map_map]
        refine List.map_congr_left (fun a _ => ?_)
        by_cases hc : a.id = r.user_id
        · simp [hc, DbUser.id_setBalance]
        · simp [hc]
      exact hmap ▸ h1
    · intro l hl hlp
      rcases List.mem_map.1 hl with ⟨x, hx, rfl⟩
      by_cases hc : x.id = lid
      · rw [if_pos hc] at hlp
        simp [approvedRow] at hlp
      · rw [if_neg hc] at hlp ⊢
        exact h2 x hx hlp
    · intro u' hu' t
      rcases List.mem_map.1 hu' with ⟨u0, hu0, rfl⟩
      have hid : ((if u0.id = r.user_id then
          u0.setBalance r.type (user.balance r.type - r.amount) else u0) : DbUser).id
          = u0.id := by
        by_cases hc : u0.id = r.user_id
        · simp [hc, DbUser.id_setBalance]
        · simp [hc]
      unfold availableBalance totalPending
      dsimp only
      rw [hid]
      have hf : ∀ x ∈ s.leaves,
          (fun l : LeaveRow =>
            l.user_id == u0.id && l.type == t && l.status == LeaveStatus.pending)
            ((fun l => if l.id = lid then approvedRow aid now l else l) x) = true →
          ((fun l => if l.id = lid then approvedRow aid now l else l) x).amount
            = x.amount := by
        intro x _ hpx
        dsimp only at hpx ⊢
        by_cases hc : x.id = lid
        · rw [if_pos hc] at hpx
          simp [approvedRow] at hpx
        · rw [if_neg hc]
      have hp : ∀ x ∈ s.leaves,
          (fun l : LeaveRow =>
            l.user_id == u0.id && l.type == t && l.status == LeaveStatus.pending)
            ((fun l => if l.id = lid then approvedRow aid now l else l) x) = true →
          (fun l : LeaveRow =>
            l.user_id == u0.id && l.type == t && l.status == LeaveStatus.pending) x
            = true := by
        intro x _ hpx
        dsimp only at hpx ⊢
        by_cases hc : x.id = lid
        · rw [if_pos hc] at hpx
          simp [approvedRow] at hpx
        · rw [if_neg hc] at hpx
          exact hpx
      have hnn : ∀ x ∈ s.leaves,
          (fun l : LeaveRow =>
            l.user_id == u0.id && l.type == t && l.status == LeaveStatus.pending) x
            = true → 0 ≤ x.amount := by
        intro x hx hpx
        simp only [Bool.and_eq_true, beq_iff_eq] at hpx
        exact h2 x hx hpx.2
      by_cases hq : u0.id = r.user_id
      · have hueq : u0 = user := List.inj_on_of_nodup_map h1 hu0 humem (by rw [hq, huid])
        subst hueq
        rw [if_pos hq]
        by_cases hct : t = r.type
        · subst hct
          have hpr : (fun l : LeaveRow =>
              l.user_id == u0.id && l.type == r.type && l.status == LeaveStatus.pending) r
              = true := by
            simp only [Bool.and_eq_true, beq_iff_eq]
            exact ⟨⟨hq.symm, trivial⟩, hst⟩
          have hgr : (fun l : LeaveRow =>
              l.user_id == u0.id && l.type == r.type && l.status == LeaveStatus.pending)
              ((fun l => if l.id = lid then approvedRow aid now l else l) r)
              = false := by
            dsimp only
            rw [if_pos hrid]
            simp [approvedRow]
          have hsub := sum_filter_map_le_sub (fun l => l.amount)
            (fun l => if l.id = lid then approvedRow aid now l else l)
            (fun l : LeaveRow =>
              l.user_id == u0.id && l.type == r.type && l.status == LeaveStatus.pending)
            s.leaves hf hp hnn r hrmem hpr hgr
          have hbal : (u0.setBalance r.type (u0.balance r.type - r.amount)).balance r.type
              = u0.balance r.type - r.amount := by
            rw [DbUser.balance_setBalance]
            simp
          rw [hbal]
          have havail := h3 u0 hu0 r.type
          unfold availableBalance totalPending at havail
          rw [hq] at hsub havail ⊢
          linarith
        · have hmono := sum_filter_map_mono (fun l => l.amount)
            (fun l => if l.id = lid then approvedRow aid now l else l)
            (fun l : LeaveRow =>
              l.user_id == u0.id && l.type == t && l.status == LeaveStatus.pending)
            s.leaves hf hp hnn
          have hbal : (u0.setBalance r.type (u0.balance r.type - r.amount)).balance t
              = u0.balance t := by
            rw [DbUser.balance_setBalance]
            simp [hct]
          rw [hbal]
          have havail := h3 u0 hu0 t
          unfold availableBalance totalPending at havail
          rw [hq] at hmono havail ⊢
          linarith
      · rw [if_neg hq]
        have hmono := sum_filter_map_mono (fun l => l.amount)
          (fun l => if l.id = lid then approvedRow aid now l else l)
          (fun l : LeaveRow =>
            l.user_id == u0.id && l.type == t && l.status == LeaveStatus.pending)
          s.leaves hf hp hnn
        have havail := h3 u0 hu0 t
        unfold availableBalance totalPending at havail
        linarith

theorem reject_preserves (s : LeaveDb) (lid aid : String) (reason : Option String)
    (now : String) (h : GoodLedger s) :
    GoodLedger (rejectLeave s lid aid reason now).2 := by
  obtain ⟨h1, h2, h3⟩ := h
  rcases reject_state s lid aid reason now with heq | ⟨r, hfind, hst, -, heq⟩
  · rw [heq]; exact ⟨h1, h2, h3⟩
  · rw [heq]
    refine ⟨h1, ?_, ?_⟩
    · intro l hl hlp
      rcases List.mem_map.1 hl with ⟨x, hx, rfl⟩
      by_cases hc : x.id = lid
      · rw [if_pos hc] at hlp
        simp [rejectedRow] at hlp
      · rw [if_neg hc] at hlp ⊢
        exact h2 x hx hlp
    · intro u hu t
      unfold availableBalance totalPending
      dsimp only
      have hf : ∀ x ∈ s.leaves,
          (fun l : LeaveRow =>
            l.user_id == u.id && l.type == t && l.status == LeaveStatus.pending)
            ((fun l => if l.id = lid then rejectedRow aid reason now l else l) x) = true →
          ((fun l => if l.id = lid then rejectedRow aid reason now l else l) x).amount
            = x.amount := by
        intro x _ hpx
        dsimp only at hpx ⊢
        by_cases hc : x.id = lid
        · rw [if_pos hc] at hpx
          simp [rejectedRow] at hpx
        · rw [if_neg hc]
      have hp : ∀ x ∈ s.leaves,
          (fun l : LeaveRow =>
            l.user_id == u.id && l.type == t && l.status == LeaveStatus.pending)
            ((fun l => if l.id = lid then rejectedRow aid reason now l else l) x) = true →
          (fun l : LeaveRow =>
            l.user_id == u.id && l.type == t && l.status == LeaveStatus.pending) x
            = true := by
        intro x _ hpx
        dsimp only at hpx ⊢
        by_cases hc : x.id = lid
        · rw [if_pos hc] at hpx
          simp [rejectedRow] at hpx
        · rw [if_neg hc] at hpx
          exact hpx
      have hnn : ∀ x ∈ s.leaves,
          (fun l : LeaveRow =>
            l.user_id == u.id && l.type == t && l.status == LeaveStatus.pending) x
            = true → 0 ≤ x.amount := by
        intro x hx hpx
        simp only [Bool.and_eq_true, beq_iff_eq] at hpx
        exact h2 x hx hpx.2
      have hmono := sum_filter_map_mono (fun l => l.amount)
        (fun l => if l.id = lid then rejectedRow aid reason now l else l)
        (fun l : LeaveRow =>
          l.user_id == u.id && l.type == t && l.status == LeaveStatus.pending)
        s.leaves hf hp hnn
      have havail := h3 u hu t
      unfold availableBalance totalPending at havail
      linarith

/-- Every single restricted ledger operation preserves the data
invariants. -/
theorem stepNN_preserves {s s' : LeaveDb} (hstep : LedgerStepNN s s')
    (h : GoodLedger s) : GoodLedger s' := by
  cases hstep with
  | submit uid lv hnn => exact submit_preserves s uid lv hnn h
  | approve lid aid now => exact approve_preserves s lid aid now h
  | reject lid aid reason now => exact reject_preserves s lid aid reason now h

/-- Any sequence of restricted ledger operations preserves the data
invariants. -/
theorem reachesNN_preserves {s s' : LeaveDb} (hsteps : LedgerReachesNN s s')
    (h : GoodLedger s) : GoodLedger s' := by
  induction hsteps with
  | refl => exact h
  | tail _ hstep ih => exact stepNN_preserves hstep ih

/-! ### Claims -/

/-- C4 fixture: one employee with casual balance 8 (`services/db.ts`
`users` row). -/
def c4emp : DbUser :=
  { id := "emp", name := "Emp", email := "emp@x.co",
    casual_balance := 8, sick_balance := 5, annual_balance := 10,
    reporting_to := some "mgr" }

/-- C4 fixture: the already-pending casual request of 2 days. -/
def c4row : LeaveRow :=
  { id := "L1", user_id := "emp", date := "2026-01-05", amount := 2,
    type := .casual, timestamp := 5, status := .pending }

/-- C4 fixture: the store with one pending casual request of 2 days. -/
def c4db : LeaveDb := { users := [c4emp], leaves := [c4row] }

/-- C4 fixture: a fresh casual request of the given amount. -/
def c4req (a : ℚ) : LeaveRecord :=
  { id := "L2", date := "2026-01-06", amount := a, type := .casual,
    timestamp := 6 }

/-- C4: whenever the requested amount exceeds the available balance (stored
balance of the type minus the user's pending sum of the type), submission
fails with the insufficient-balance error carrying the computed
available / total / pending figures, and the store is returned unchanged;
in the spec scenario (casual balance 8, pending casual sum 2) an amount of
6 succeeds while 6.5 fails with exactly those figures. -/
theorem submit_insufficient_rejects_and_preserves_store :
    (∀ (s : LeaveDb) (uid : String) (lv : LeaveRecord) (user : DbUser),
      s.users.find? (fun u => u.id == uid) = some user →
      user.balance lv.type - totalPending s uid lv.type < lv.amount →
      submitLeaveRequest s uid lv =
        (.insufficientBalance lv.type
          (user.balance lv.type - totalPending s uid lv.type)
          (user.balance lv.type) (totalPending s uid lv.type), s)) ∧
    (submitLeaveRequest c4db "emp" (c4req 6)).1 = .ok ∧
    submitLeaveRequest c4db "emp" (c4req 6.5) =
      (.insufficientBalance .casual 6 8 2, c4db) := by
  refine ⟨?_, ?_, ?_⟩
  · intro s uid lv user hfind hlt
    unfold submitLeaveRequest
    rw [hfind]
    simp [hlt]
  · with_unfolding_all decide
  · with_unfolding_all decide

/-- C4 witness: the general part of
`submit_insufficient_rejects_and_preserves_store` applied to the concrete
6.5-day request. -/
theorem submit_insufficient_rejects_and_preserves_store_witness :
    submitLeaveRequest c4db "emp" (c4req 6.5) =
      (.insufficientBalance (c4req 6.5).type
        (c4emp.balance (c4req 6.5).type - totalPending c4db "emp" (c4req 6.5).type)
        (c4emp.balance (c4req 6.5).type)
        (totalPending c4db "emp" (c4req 6.5).type), c4db) :=
  submit_insufficient_rejects_and_preserves_store.1 c4db "emp" (c4req 6.5) c4emp
    (by with_unfolding_all decide) (by with_unfolding_all decide)

/-- C8: a successful submission leaves the `users` table (and with it every
stored balance) unchanged and appends exactly one new row, owned by the
requesting user, with status `pending`. -/
theorem submit_ok_inserts_single_pending_row (s : LeaveDb) (uid : String)
    (lv : LeaveRecord) (hok : (submitLeaveRequest s uid lv).1 = .ok) :
    (submitLeaveRequest s uid lv).2.users = s.users ∧
    (submitLeaveRequest s uid lv).2.leaves = s.leaves ++ [submittedRow uid lv] ∧
    (submittedRow uid lv).user_id = uid ∧
    (submittedRow uid lv).status = .pending := by
  rcases submit_state s uid lv with ⟨hne, -⟩ | ⟨user, -, -, -, heq⟩
  · exact absurd hok hne
  · rw [heq]
    exact ⟨rfl, rfl, rfl, rfl⟩

/-- C8 witness fixture: a user with casual balance 3. -/
def c8user : DbUser :=
  { id := "w", name := "W", email := "w@x.co",
    casual_balance := 3, sick_balance := 0, annual_balance := 0 }

/-- C8 witness fixture: the store with that user and an empty
`leave_history`. -/
def c8db : LeaveDb := { users := [c8user], leaves := [] }

/-- C8 witness fixture: a 1-day casual request. -/
def c8req : LeaveRecord :=
  { id := "W1", date := "2026-01-07", amount := 1, type := .casual,
    timestamp := 7 }

/-- C8 witness: `submit_ok_inserts_single_pending_row` at a concrete
successful submission. -/
theorem submit_ok_inserts_single_pending_row_witness :
    (submitLeaveRequest c8db "w" c8req).2.users = c8db.users ∧
    (submitLeaveRequest c8db "w" c8req).2.leaves =
      c8db.leaves ++ [submittedRow "w" c8req] ∧
    (submittedRow "w" c8req).user_id = "w" ∧
    (submittedRow "w" c8req).status = .pending :=
  submit_ok_inserts_single_pending_row c8db "w" c8req (by with_unfolding_all decide)

/-- C2 fixture: one employee with casual balance 5 owning one pending
casual request of 2 days. -/
def c2emp : DbUser :=
  { id := "emp", name := "Emp", email := "emp@x.co",
    casual_balance := 5, sick_balance := 0, annual_balance := 0,
    reporting_to := some "mgr" }

/-- C2 fixture: the pending 2-day casual row. -/
def c2row : LeaveRow :=
  { id := "L1", user_id := "emp", date := "2026-02-01", amount := 2,
    type := .casual, timestamp := 1, status := .pending }

/-- C2 fixture: the store holding `c2emp` and `c2row`. -/
def c2db : LeaveDb := { users := [c2emp], leaves := [c2row] }

/-- C2: the two writes of `approveLeave` are not one logical transaction.
If the balance write fails the function returns early and the state is
unchanged (the direction that holds), but if the status write fails the
already-performed balance decrement is not rolled back: on the concrete
store the balance drops from 5 to 3 while the record stays `pending`, so
the state is not unchanged on error. -/
theorem approve_writes_not_atomic :
    (approveLeaveWr true false c2db "L1" "mgr" "T").2 = c2db ∧
    (approveLeaveWr false true c2db "L1" "mgr" "T").1 = .failedUpdateStatus ∧
    (approveLeaveWr false true c2db "L1" "mgr" "T").2.users =
      [{ c2emp with casual_balance := 3 }] ∧
    (approveLeaveWr false true c2db "L1" "mgr" "T").2.leaves = [c2row] ∧
    (approveLeaveWr false true c2db "L1" "mgr" "T").2 ≠ c2db := by
  refine ⟨?_, ?_, ?_, ?_, ?_⟩ <;> with_unfolding_all decide

/-- C9 fixture: an employee reporting to `boss` with one pending casual
request. -/
def c9emp : DbUser :=
  { id := "emp", name := "Emp", email := "emp@x.co",
    casual_balance := 5, sick_balance := 0, annual_balance := 0,
    reporting_to := some "boss" }

/-- C9 fixture: the pending row owned by `c9emp`. -/
def c9row : LeaveRow :=
  { id := "L1", user_id := "emp", date := "2026-02-02", amount := 1,
    type := .casual, timestamp := 1, status := .pending }

/-- C9 fixture: the store holding `c9emp` and `c9row`. -/
def c9db : LeaveDb := { users := [c9emp], leaves := [c9row] }

/-- C9 counterexample: the record owner's `reporting_to` is `boss`, yet
both `approveLeave` and `rejectLeave` succeed when called with the
unrelated approver id `intruder`; transition rights are not restricted to
the owner's manager. -/
theorem approve_succeeds_for_non_manager :
    c9emp.reporting_to = some "boss" ∧
    ("intruder" : String) ≠ "boss" ∧
    (approveLeave c9db "L1" "intruder" "T").1 = .ok ∧
    (rejectLeave c9db "L1" "intruder" none "T").1 = .ok := by
  refine ⟨rfl, ?_, ?_, ?_⟩ <;> with_unfolding_all decide

/-- C9 amended: `approveLeave` and `rejectLeave` never consult the approver
identity for their decision: the outcome is the same for any two approver
ids (the approver only ends up stamped in `approved_by`); manager scoping
exists only in `getPendingApprovals`. -/
theorem approve_reject_ignore_approver_identity (s : LeaveDb)
    (lid a1 a2 now : String) (reason : Option String) :
    (approveLeave s lid a1 now).1 = (approveLeave s lid a2 now).1 ∧
    (rejectLeave s lid a1 reason now).1 = (rejectLeave s lid a2 reason now).1 := by
  constructor
  · unfold approveLeave approveLeaveWr
    cases hfind : s.leaves.find? (fun l => l.id == lid) with
    | none => rfl
    | some r =>
      by_cases hst : r.status = LeaveStatus.pending
      · cases hfindu : s.users.find? (fun u => u.id == r.user_id) with
        | none => simp [hst, hfindu]
        | some user =>
          by_cases hlt : user.balance r.type < r.amount <;>
            simp [hst, hfindu, hlt]
      · simp [hst]
  · unfold rejectLeave
    cases hfind : s.leaves.find? (fun l => l.id == lid) with
    | none => rfl
    | some r =>
      by_cases hst : r.status = LeaveStatus.pending <;> simp [hst]

/-- A record that no longer resolves to `pending` status is refused by
`approveLeave` with the already-processed error, before any write. -/
theorem approve_already_processed (s2 : LeaveDb) (lid aid now : String)
    (row : LeaveRow) (hfind : s2.leaves.find? (fun l => l.id == lid) = some row)
    (hst : row.status ≠ LeaveStatus.pending) :
    approveLeave s2 lid aid now = (.alreadyProcessed, s2) := by
  unfold approveLeave approveLeaveWr
  rw [hfind]
  simp [hst]

/-- A record that no longer resolves to `pending` status is refused by
`rejectLeave` with the already-processed error, before any write. -/
theorem reject_already_processed (s2 : LeaveDb) (lid aid : String)
    (reason : Option String) (now : String)
    (row : LeaveRow) (hfind : s2.leaves.find? (fun l => l.id == lid) = some row)
    (hst : row.status ≠ LeaveStatus.pending) :
    rejectLeave s2 lid aid reason now = (.alreadyProcessed, s2) := by
  unfold rejectLeave
  rw [hfind]
  simp [hst]

/-- C3: on a store whose leave ids resolve by `find?`, approving an
existing pending record (whose owner exists with sufficient stored balance)
succeeds, decrements exactly the owner's stored balance of the record's
type by the record's amount, and stamps the record `approved` with approver
id and timestamp; approving the same record again afterwards fails with
the already-processed error and leaves the whole store (hence every
balance) unchanged; approving an id that does not resolve fails with the
not-found error and leaves the store unchanged. -/
theorem approve_once_then_already_processed (s : LeaveDb) (lid aid now : String) :
    (∀ r user,
      s.leaves.find? (fun l => l.id == lid) = some r →
      r.status = LeaveStatus.pending →
      s.users.find? (fun u => u.id == r.user_id) = some user →
      r.amount ≤ user.balance r.type →
      (approveLeave s lid aid now).1 = .ok ∧
      (approveLeave s lid aid now).2.users.find? (fun u => u.id == r.user_id) =
        some (user.setBalance r.type (user.balance r.type - r.amount)) ∧
      (approveLeave s lid aid now).2.leaves.find? (fun l => l.id == lid) =
        some (approvedRow aid now r) ∧
      (∀ aid' now', approveLeave (approveLeave s lid aid now).2 lid aid' now' =
        (.alreadyProcessed, (approveLeave s lid aid now).2))) ∧
    (s.leaves.find? (fun l => l.id == lid) = none →
      approveLeave s lid aid now = (.notFound, s)) := by
  constructor
  · intro r user hfind hst hfindu hle
    have hrid : r.id = lid := by simpa using List.find?_some hfind
    have huid : user.id = r.user_id := by simpa using List.find?_some hfindu
    have hnlt : ¬ user.balance r.type < r.amount := not_lt.2 hle
    have happ : (approveLeave s lid aid now).2 = { s with
        users := s.users.map (fun u =>
          if u.id = r.user_id then
            u.setBalance r.type (user.balance r.type - r.amount) else u)
        leaves := s.leaves.map (fun l =>
          if l.id = lid then approvedRow aid now l else l) } := by
      unfold approveLeave approveLeaveWr
      rw [hfind]
      simp [hst, hfindu, hnlt, approvedRow]
    have hres : (approveLeave s lid aid now).1 = .ok := by
      unfold approveLeave approveLeaveWr
      rw [hfind]
      simp [hst, hfindu, hnlt]
    have hkeyu : ∀ u : DbUser,
        (((if u.id = r.user_id then
            u.setBalance r.type (user.balance r.type - r.amount) else u) :
            DbUser).id == r.user_id) = (u.id == r.user_id) := by
      intro u
      by_cases hc : u.id = r.user_id
      · simp [hc, DbUser.id_setBalance]
      · simp [hc]
    have hkeyl : ∀ l : LeaveRow,
        (((if l.id = lid then approvedRow aid now l else l) : LeaveRow).id == lid)
          = (l.id == lid) := by
      intro l
      by_cases hc : l.id = lid
      · simp [hc, approvedRow]
      · simp [hc]
    have hfu : (approveLeave s lid aid now).2.users.find?
        (fun u => u.id == r.user_id) =
        some (user.setBalance r.type (user.balance r.type - r.amount)) := by
      rw [happ]
      rw [show ({ s with
          users := s.users.map (fun u =>
            if u.id = r.user_id then
              u.setBalance r.type (user.balance r.type - r.amount) else u)
          leaves := s.leaves.map (fun l =>
            if l.id = lid then approvedRow aid now l else l) } : LeaveDb).users
        = s.users.map (fun u =>
            if u.id = r.user_id then
              u.setBalance r.type (user.balance r.type - r.amount) else u) from rfl]
      rw [find?_map_of_key hkeyu, hfindu, Option.map_some']
      rw [if_pos huid]
    have hfl : (approveLeave s lid aid now).2.leaves.find?
        (fun l => l.id == lid) = some (approvedRow aid now r) := by
      rw [happ]
      rw [show ({ s with
          users := s.users.map (fun u =>
            if u.id = r.user_id then
              u.setBalance r.type (user.balance r.type - r.amount) else u)
          leaves := s.leaves.map (fun l =>
            if l.id = lid then approvedRow aid now l else l) } : LeaveDb).leaves
        = s.leaves.map (fun l =>
            if l.id = lid then approvedRow aid now l else l) from rfl]
      rw [find?_map_of_key hkeyl, hfind, Option.map_some']
      rw [if_pos hrid]
    refine ⟨hres, hfu, hfl, ?_⟩
    intro aid' now'
    exact approve_already_processed _ lid aid' now' _ hfl (by simp [approvedRow])
  · intro hnone
    unfold approveLeave approveLeaveWr
    rw [hnone]

/-- C3 fixture: an employee with casual balance 5. -/
def c3emp : DbUser :=
  { id := "emp", name := "Emp", email := "emp@x.co",
    casual_balance := 5, sick_balance := 0, annual_balance := 0,
    reporting_to := some "mgr" }

/-- C3 fixture: the pending 2-day casual record owned by `c3emp`. -/
def c3row : LeaveRow :=
  { id := "L1", user_id := "emp", date := "2026-02-03", amount := 2,
    type := .casual, timestamp := 1, status := .pending }

/-- C3 fixture: the store holding `c3emp` and `c3row`. -/
def c3db : LeaveDb := { users := [c3emp], leaves := [c3row] }

/-- C3 witness: `approve_once_then_already_processed` at the concrete
store. -/
theorem approve_once_then_already_processed_witness :
    (approveLeave c3db "L1" "mgr" "T1").1 = .ok ∧
    (approveLeave c3db "L1" "mgr" "T1").2.users.find?
      (fun u => u.id == c3row.user_id) =
      some (c3emp.setBalance c3row.type (c3emp.balance c3row.type - c3row.amount)) ∧
    (approveLeave c3db "L1" "mgr" "T1").2.leaves.find? (fun l => l.id == "L1") =
      some (approvedRow "mgr" "T1" c3row) ∧
    (∀ aid' now', approveLeave (approveLeave c3db "L1" "mgr" "T1").2 "L1" aid' now' =
      (.alreadyProcessed, (approveLeave c3db "L1" "mgr" "T1").2)) :=
  (approve_once_then_already_processed c3db "L1" "mgr" "T1").1 c3row c3emp
    (by with_unfolding_all decide) rfl (by with_unfolding_all decide)
    (by with_unfolding_all decide)

/-- C6: `rejectLeave` never touches the `users` table, so no stored balance
ever changes; on a record that resolves to `pending` it succeeds and only
stamps the record `rejected` with approver id, timestamp and the optional
reason; rejecting the same record again afterwards fails with the
already-processed error leaving the store unchanged; rejecting an id that
does not resolve fails with the not-found error leaving the store
unchanged. -/
theorem reject_no_balance_change_once_twice_notfound (s : LeaveDb)
    (lid aid : String) (reason : Option String) (now : String) :
    (rejectLeave s lid aid reason now).2.users = s.users ∧
    (∀ r, s.leaves.find? (fun l => l.id == lid) = some r →
      r.status = LeaveStatus.pending →
      (rejectLeave s lid aid reason now).1 = .ok ∧
      (rejectLeave s lid aid reason now).2.leaves.find? (fun l => l.id == lid) =
        some (rejectedRow aid reason now r) ∧
      (∀ aid' reason' now',
        rejectLeave (rejectLeave s lid aid reason now).2 lid aid' reason' now' =
          (.alreadyProcessed, (rejectLeave s lid aid reason now).2))) ∧
    (s.leaves.find? (fun l => l.id == lid) = none →
      rejectLeave s lid aid reason now = (.notFound, s)) := by
  refine ⟨rejectLeave_users s lid aid reason now, ?_, ?_⟩
  · intro r hfind hst
    have hrid : r.id = lid := by simpa using List.find?_some hfind
    have hrej : (rejectLeave s lid aid reason now).2 = { s with
        leaves := s.leaves.map (fun l =>
          if l.id = lid then rejectedRow aid reason now l else l) } := by
      unfold rejectLeave
      rw [hfind]
      simp [hst, rejectedRow]
    have hres : (rejectLeave s lid aid reason now).1 = .ok := by
      unfold rejectLeave
      rw [hfind]
      simp [hst]
    have hkeyl : ∀ l : LeaveRow,
        (((if l.id = lid then rejectedRow aid reason now l else l) : LeaveRow).id
          == lid) = (l.id == lid) := by
      intro l
      by_cases hc : l.id = lid
      · simp [hc, rejectedRow]
      · simp [hc]
    have hfl : (rejectLeave s lid aid reason now).2.leaves.find?
        (fun l => l.id == lid) = some (rejectedRow aid reason now r) := by
      rw [hrej]
      rw [show ({ s with leaves := s.leaves.map (fun l =>
          if l.id = lid then rejectedRow aid reason now l else l) } : LeaveDb).leaves
        = s.leaves.map (fun l =>
            if l.id = lid then rejectedRow aid reason now l else l) from rfl]
      rw [find?_map_of_key hkeyl, hfind, Option.map_some']
      rw [if_pos hrid]
    refine ⟨hres, hfl, ?_⟩
    intro aid' reason' now'
    exact reject_already_processed _ lid aid' reason' now' _ hfl
      (by simp [rejectedRow])
  · intro hnone
    unfold rejectLeave
    rw [hnone]

/-- C6 fixture: an employee with casual balance 5. -/
def c6emp : DbUser :=
  { id := "emp", name := "Emp", email := "emp@x.co",
    casual_balance := 5, sick_balance := 0, annual_balance := 0,
    reporting_to := some "mgr" }

/-- C6 fixture: the pending 2-day casual record owned by `c6emp`. -/
def c6row : LeaveRow :=
  { id := "L1", user_id := "emp", date := "2026-02-04", amount := 2,
    type := .casual, timestamp := 1, status := .pending }

/-- C6 fixture: the store holding `c6emp` and `c6row`. -/
def c6db : LeaveDb := { users := [c6emp], leaves := [c6row] }

/-- C6 witness: `reject_no_balance_change_once_twice_notfound` at the
concrete store. -/
theorem reject_no_balance_change_once_twice_notfound_witness :
    (rejectLeave c6db "L1" "mgr" (some "busy") "T1").2.users = c6db.users ∧
    (rejectLeave c6db "L1" "mgr" (some "busy") "T1").1 = .ok ∧
    (rejectLeave c6db "L1" "mgr" (some "busy") "T1").2.leaves.find?
      (fun l => l.id == "L1") = some (rejectedRow "mgr" (some "busy") "T1" c6row) :=
  have h := reject_no_balance_change_once_twice_notfound c6db "L1" "mgr"
    (some "busy") "T1"
  ⟨h.1, (h.2.1 c6row (by with_unfolding_all decide) rfl).1,
    (h.2.1 c6row (by with_unfolding_all decide) rfl).2.1⟩

/-- C5 amended: each mutation re-checks a guard at call time, but the two
guards differ.  Submission mutates the store only if the requested amount
does not exceed the recomputed effective available balance (stored balance
minus pending sum); approval mutates the store only if the record's amount
does not exceed the owner's recomputed *stored* balance — the pending sum
is not consulted by approval. -/
theorem mutation_requires_recheck (s : LeaveDb) (uid : String)
    (lv : LeaveRecord) (lid aid now : String) :
    ((submitLeaveRequest s uid lv).2 ≠ s →
      ∃ user, s.users.find? (fun u => u.id == uid) = some user ∧
        lv.amount ≤ user.balance lv.type - totalPending s uid lv.type) ∧
    ((approveLeave s lid aid now).2 ≠ s →
      ∃ r user, s.leaves.find? (fun l => l.id == lid) = some r ∧
        r.status = LeaveStatus.pending ∧
        s.users.find? (fun u => u.id == r.user_id) = some user ∧
        r.amount ≤ user.balance r.type) := by
  constructor
  · intro hne
    rcases submit_state s uid lv with ⟨-, heq⟩ | ⟨user, hfind, hle, -, -⟩
    · exact absurd heq hne
    · exact ⟨user, hfind, hle⟩
  · intro hne
    rcases approve_state s lid aid now with heq | ⟨r, user, hfind, hst, hfindu, hle, -, -⟩
    · exact absurd heq hne
    · exact ⟨r, user, hfind, hst, hfindu, hle⟩

/-- C5 fixture: an employee with casual balance 3. -/
def c5emp : DbUser :=
  { id := "emp", name := "Emp", email := "emp@x.co",
    casual_balance := 3, sick_balance := 0, annual_balance := 0,
    reporting_to := some "mgr" }

/-- C5 fixture: first pending 2-day casual record. -/
def c5row1 : LeaveRow :=
  { id := "L1", user_id := "emp", date := "2026-02-05", amount := 2,
    type := .casual, timestamp := 1, status := .pending }

/-- C5 fixture: second pending 2-day casual record. -/
def c5row2 : LeaveRow :=
  { id := "L2", user_id := "emp", date := "2026-02-06", amount := 2,
    type := .casual, timestamp := 2, status := .pending }

/-- C5 fixture: balance 3 with two pending casual records of 2 days each,
so the effective available balance is 3 - 4 = -1. -/
def c5db : LeaveDb := { users := [c5emp], leaves := [c5row1, c5row2] }

/-- C5 counterexample: approval does not re-check the effective available
balance.  On the concrete store the record `L1` of amount 2 resolves while
the owner's effective available casual balance is -1 < 2, yet `approveLeave`
succeeds and mutates the store. -/
theorem approve_mutates_beyond_available_balance :
    c5db.leaves.find? (fun l => l.id == "L1") = some c5row1 ∧
    c5emp ∈ c5db.users ∧
    availableBalance c5db c5emp .casual = -1 ∧
    c5row1.amount = 2 ∧
    (approveLeave c5db "L1" "mgr" "T").1 = .ok ∧
    (approveLeave c5db "L1" "mgr" "T").2 ≠ c5db := by
  refine ⟨?_, ?_, ?_, ?_, ?_, ?_⟩ <;> with_unfolding_all decide

/-- C5 witness fixture: a user with casual balance 4 and no pending rows. -/
def c5wuser : DbUser :=
  { id := "u", name := "U", email := "u@x.co",
    casual_balance := 4, sick_balance := 0, annual_balance := 0 }

/-- C5 witness fixture: the store holding only `c5wuser`. -/
def c5wdb : LeaveDb := { users := [c5wuser], leaves := [] }

/-- C5 witness fixture: a 1-day casual request. -/
def c5wreq : LeaveRecord :=
  { id := "W", date := "2026-02-07", amount := 1, type := .casual,
    timestamp := 3 }

/-- C5 witness: `mutation_requires_recheck` at a concrete mutating
submission. -/
theorem mutation_requires_recheck_witness :
    ∃ user, c5wdb.users.find? (fun u => u.id == "u") = some user ∧
      c5wreq.amount ≤ user.balance c5wreq.type - totalPending c5wdb "u" c5wreq.type :=
  (mutation_requires_recheck c5wdb "u" c5wreq "x" "y" "z").1
    (by with_unfolding_all decide)

/-- C10: if every pending record's amount is strictly positive and every
user's effective available balance is nonnegative, the insufficient-balance
failure branch of `approveLeave` is unreachable: the stored balance always
covers the amount of any single pending record of its type. -/
theorem approve_insufficient_unreachable (s : LeaveDb) (lid aid now : String)
    (hpos : PendingPos s) (hav : AvailNonneg s) :
    (approveLeave s lid aid now).1 ≠ ApproveResult.insufficientBalance := by
  have key : ∀ r user, s.leaves.find? (fun l => l.id == lid) = some r →
      r.status = LeaveStatus.pending →
      s.users.find? (fun u => u.id == r.user_id) = some user →
      ¬ user.balance r.type < r.amount := by
    intro r user hfind hst hfindu hlt
    have hrmem : r ∈ s.leaves := List.mem_of_find?_eq_some hfind
    have humem : user ∈ s.users := List.mem_of_find?_eq_some hfindu
    have huid : user.id = r.user_id := by simpa using List.find?_some hfindu
    have hmem : r ∈ s.leaves.filter (fun l =>
        l.user_id == user.id && l.type == r.type &&
          l.status == LeaveStatus.pending) := by
      rw [List.mem_filter]
      refine ⟨hrmem, ?_⟩
      simp only [Bool.and_eq_true, beq_iff_eq]
      exact ⟨⟨huid.symm, trivial⟩, hst⟩
    have hple : r.amount ≤ totalPending s user.id r.type := by
      unfold totalPending
      refine List.single_le_sum ?_ _ (List.mem_map.2 ⟨r, hmem, rfl⟩)
      intro x hx
      rcases List.mem_map.1 hx with ⟨y, hy, rfl⟩
      have hy' := List.mem_filter.1 hy
      have hyp : y.status = LeaveStatus.pending := by
        have h' := hy'.2
        simp only [Bool.and_eq_true, beq_iff_eq] at h'
        exact h'.2
      exact le_of_lt (hpos y hy'.1 hyp)
    have hav' := hav user humem r.type
    unfold availableBalance at hav'
    linarith
  unfold approveLeave approveLeaveWr
  cases hfind : s.leaves.find? (fun l => l.id == lid) with
  | none => simp
  | some r =>
    by_cases hst : r.status = LeaveStatus.pending
    · cases hfindu : s.users.find? (fun u => u.id == r.user_id) with
      | none => simp [hst, hfindu]
      | some user =>
        have hnlt := key r user hfind hst hfindu
        simp [hst, hfindu, hnlt]
    · simp [hst]

/-- C10 fixture: an employee with casual balance 6 owning two pending
casual records of 2 and 3 days (available balance 1 >= 0, amounts > 0). -/
def c10emp : DbUser :=
  { id := "emp", name := "Emp", email := "emp@x.co",
    casual_balance := 6, sick_balance := 0, annual_balance := 0,
    reporting_to := some "mgr" }

/-- C10 fixture: first pending record, 2 casual days. -/
def c10row1 : LeaveRow :=
  { id := "L1", user_id := "emp", date := "2026-02-08", amount := 2,
    type := .casual, timestamp := 1, status := .pending }

/-- C10 fixture: second pending record, 3 casual days. -/
def c10row2 : LeaveRow :=
  { id := "L2", user_id := "emp", date := "2026-02-09", amount := 3,
    type := .casual, timestamp := 2, status := .pending }

/-- C10 fixture: the store holding `c10emp` and its two pending records. -/
def c10db : LeaveDb := { users := [c10emp], leaves := [c10row1, c10row2] }

/-- C10 witness: `approve_insufficient_unreachable` at the concrete
store. -/
theorem approve_insufficient_unreachable_witness :
    (approveLeave c10db "L1" "mgr" "T").1 ≠ ApproveResult.insufficientBalance :=
  approve_insufficient_unreachable c10db "L1" "mgr" "T"
    (by with_unfolding_all decide) (by with_unfolding_all decide)

/-- C1 fixture: a user with all balances 0. -/
def c1user : DbUser :=
  { id := "u", name := "U", email := "u@x.co",
    casual_balance := 0, sick_balance := 0, annual_balance := 0 }

/-- C1 fixture: the initial store, where every effective available balance
is 0 and hence nonnegative. -/
def c1db0 : LeaveDb := { users := [c1user], leaves := [] }

/-- C1 fixture: a casual request of -5 days (the code never validates
`amount > 0`). -/
def c1reqNeg : LeaveRecord :=
  { id := "A", date := "2026-03-01", amount := -5, type := .casual,
    timestamp := 1 }

/-- C1 fixture: a casual request of 5 days. -/
def c1reqPos : LeaveRecord :=
  { id := "B", date := "2026-03-02", amount := 5, type := .casual,
    timestamp := 2 }

/-- C1 fixture: after submitting the -5-day request. -/
def c1db1 : LeaveDb := (submitLeaveRequest c1db0 "u" c1reqNeg).2

/-- C1 fixture: after additionally submitting the 5-day request. -/
def c1db2 : LeaveDb := (submitLeaveRequest c1db1 "u" c1reqPos).2

/-- C1 fixture: after rejecting the -5-day request, leaving a pending
5-day request against a stored balance of 0. -/
def c1db3 : LeaveDb := (rejectLeave c1db2 "A" "mgr" none "T").2

/-- C1 counterexample: starting from a store where every effective
available balance is nonnegative, the sequence submit(-5), submit(5),
reject(-5) — each step a plain ledger operation the code accepts — ends in
a store whose effective available balance is negative (balance 0 against a
pending sum of 5): the invariant is not preserved by arbitrary sequences,
because submission never validates `amount > 0`. -/
theorem avail_invariant_not_preserved :
    AvailNonneg c1db0 ∧ LedgerReaches c1db0 c1db3 ∧ ¬ AvailNonneg c1db3 := by
  refine ⟨by with_unfolding_all decide, ?_, by with_unfolding_all decide⟩
  have h1 : LedgerStep c1db0 c1db1 := LedgerStep.submit c1db0 "u" c1reqNeg
  have h2 : LedgerStep c1db1 c1db2 := LedgerStep.submit c1db1 "u" c1reqPos
  have h3 : LedgerStep c1db2 c1db3 := LedgerStep.reject c1db2 "A" "mgr" none "T"
  exact Relation.ReflTransGen.head h1
    (Relation.ReflTransGen.head h2 (Relation.ReflTransGen.single h3))

/-- C1 amended: restricted to submissions of nonnegative amounts (the
spec's `amount > 0` precondition) and started from a store with
primary-key user ids, nonnegative pending amounts and nonnegative
effective available balances, every sequence of submit / approve / reject
operations keeps every user's effective available balance of every type
nonnegative. -/
theorem avail_invariant_preserved (s s' : LeaveDb)
    (hgood : GoodLedger s) (hreach : LedgerReachesNN s s') :
    AvailNonneg s' :=
  (reachesNN_preserves hreach hgood).2.2

/-- C1 witness fixture: a user with casual balance 2 and an empty
`leave_history`. -/
def c1wuser : DbUser :=
  { id := "w", name := "W", email := "w@x.co",
    casual_balance := 2, sick_balance := 0, annual_balance := 0 }

/-- C1 witness fixture: the store holding only `c1wuser`. -/
def c1wdb : LeaveDb := { users := [c1wuser], leaves := [] }

/-- C1 witness fixture: a 1-day casual request. -/
def c1wreq : LeaveRecord :=
  { id := "W1", date := "2026-03-03", amount := 1, type := .casual,
    timestamp := 3 }

/-- C1 witness: `avail_invariant_preserved` across one concrete
nonnegative submission. -/
theorem avail_invariant_preserved_witness :
    AvailNonneg (submitLeaveRequest c1wdb "w" c1wreq).2 :=
  avail_invariant_preserved c1wdb (submitLeaveRequest c1wdb "w" c1wreq).2
    (by with_unfolding_all decide)
    (Relation.ReflTransGen.single
      (LedgerStepNN.submit c1wdb "w" c1wreq (by with_unfolding_all decide)))

/-- Projecting the row back out of the user-joined result of
`getPendingApprovals` returns the underlying row list. -/
theorem map_row_map_mk (f g : LeaveRow → String) (m : List LeaveRow) :
    ((m.map (fun leave =>
      ({ row := leave, user_name := f leave, user_email := g leave } :
        PendingLeaveRequest))).map (fun p => p.row)) = m := by
  rw [List.map_map]
  exact List.map_id'' (fun x => rfl) m

/-- C7: `getPendingApprovals managerId` returns exactly the pending
records owned by users whose `reporting_to` equals `managerId` (as a
permutation of that filter of the `leave_history` table), ordered newest
first by timestamp; and on a store with primary-key user ids, a user whose
`reporting_to` is unset never has a record in the result for any
manager. -/
theorem pending_approvals_spec (s : LeaveDb) (mid : String) :
    ((getPendingApprovals s mid).map (fun p => p.row)).Perm
      (s.leaves.filter (fun l =>
        l.status == LeaveStatus.pending &&
        s.users.any (fun u => u.id == l.user_id && u.reporting_to == some mid))) ∧
    (getPendingApprovals s mid).Pairwise
      (fun p q => q.row.timestamp ≤ p.row.timestamp) ∧
    (UsersNodup s → ∀ u ∈ s.users, u.reporting_to = none →
      ∀ p ∈ getPendingApprovals s mid, p.row.user_id ≠ u.id) := by
  simp only [getPendingApprovals]
  by_cases hR : (s.users.filter (fun u => u.reporting_to == some mid)).isEmpty
  · rw [if_pos hR]
    have hRnil : s.users.filter (fun u => u.reporting_to == some mid) = [] :=
      List.isEmpty_iff.1 hR
    have hFnil : s.leaves.filter (fun l =>
        l.status == LeaveStatus.pending &&
        s.users.any (fun u => u.id == l.user_id && u.reporting_to == some mid)) = [] := by
      rw [List.filter_eq_nil_iff]
      intro l hl hcond
      simp only [Bool.and_eq_true, beq_iff_eq, List.any_eq_true] at hcond
      rcases hcond.2 with ⟨u, hu, hui, hur⟩
      have hmem : u ∈ s.users.filter (fun x => x.reporting_to == some mid) := by
        rw [List.mem_filter]
        exact ⟨hu, by simp [hur]⟩
      rw [hRnil] at hmem
      cases hmem
    rw [hFnil]
    exact ⟨by simp, List.Pairwise.nil, fun _ u _ _ p hp => absurd hp (by simp)⟩
  · rw [if_neg hR]
    set R := s.users.filter (fun u => u.reporting_to == some mid) with hRdef
    set L := s.leaves.filter (fun l =>
      (R.map (fun r => r.id)).contains l.user_id &&
        l.status == LeaveStatus.pending) with hLdef
    have hperm0 : (L.mergeSort (fun a b => Nat.ble b.timestamp a.timestamp)).Perm L :=
      List.mergeSort_perm L _
    have hfeq : L = s.leaves.filter (fun l =>
        l.status == LeaveStatus.pending &&
        s.users.any (fun u => u.id == l.user_id && u.reporting_to == some mid)) := by
      rw [hLdef, hRdef]
      apply List.filter_congr
      intro l _
      rw [Bool.eq_iff_iff]
      simp only [Bool.and_eq_true, beq_iff_eq, List.any_eq_true,
        List.contains_iff_exists_mem_beq, List.mem_map, List.mem_filter]
      constructor
      · rintro ⟨⟨a, ⟨u, ⟨hu, hur⟩, huida⟩, hxa⟩, hlp⟩
        exact ⟨hlp, u, hu, huida.trans hxa.symm, hur⟩
      · rintro ⟨hlp, u, hu, hui, hur⟩
        exact ⟨⟨u.id, ⟨u, ⟨hu, hur⟩, rfl⟩, hui.symm⟩, hlp⟩
    refine ⟨?_, ?_, ?_⟩
    · rw [map_row_map_mk]
      exact hfeq ▸ hperm0
    · rw [List.pairwise_map]
      have htrans : ∀ a b c : LeaveRow,
          Nat.ble b.timestamp a.timestamp = true →
          Nat.ble c.timestamp b.timestamp = true →
          Nat.ble c.timestamp a.timestamp = true := by
        intro a b c hab hbc
        simp only [Nat.ble_eq] at hab hbc ⊢
        exact le_trans hbc hab
      have htotal : ∀ a b : LeaveRow,
          (Nat.ble b.timestamp a.timestamp || Nat.ble a.timestamp b.timestamp)
            = true := by
        intro a b
        rcases Nat.le_total b.timestamp a.timestamp with h | h <;> simp [h]
      have hs := List.sorted_mergeSort htrans htotal L
      exact hs.imp (fun hab => by simpa using hab)
    · intro hn u hu hnone p hp
      rcases List.mem_map.1 hp with ⟨x, hx, rfl⟩
      have hxL : x ∈ L := hperm0.mem_iff.1 hx
      rw [hLdef] at hxL
      have hxf := List.mem_filter.1 hxL
      have hcond := hxf.2
      simp only [Bool.and_eq_true, List.contains_iff_exists_mem_beq,
        List.mem_map, beq_iff_eq] at hcond
      rcases hcond.1 with ⟨a, ⟨u', hu', huida⟩, hxa⟩
      rw [hRdef] at hu'
      have hu'f := List.mem_filter.1 hu'
      have hur' : u'.reporting_to = some mid := by simpa using hu'f.2
      intro hcontra
      have hueq : u' = u := List.inj_on_of_nodup_map hn hu'f.1 hu
        (by rw [huida, ← hxa, hcontra])
      rw [hueq, hnone] at hur'
      cases hur'

/-- C7 fixture: the manager. -/
def c7mgr : DbUser :=
  { id := "mgr", name := "Mgr", email := "mgr@x.co",
    casual_balance := 0, sick_balance := 0, annual_balance := 0 }

/-- C7 fixture: an employee reporting to `mgr`. -/
def c7emp : DbUser :=
  { id := "emp", name := "Emp", email := "emp@x.co",
    casual_balance := 9, sick_balance := 9, annual_balance := 9,
    reporting_to := some "mgr" }

/-- C7 fixture: a user with `reporting_to` unset. -/
def c7lone : DbUser :=
  { id := "lone", name := "Lone", email := "lone@x.co",
    casual_balance := 9, sick_balance := 9, annual_balance := 9 }

/-- C7 fixture: pending sick record of `c7emp`, timestamp 3. -/
def c7row1 : LeaveRow :=
  { id := "P1", user_id := "emp", date := "2026-03-04", amount := 1,
    type := .sick, timestamp := 3, status := .pending }

/-- C7 fixture: pending sick record of `c7lone`, timestamp 9. -/
def c7row2 : LeaveRow :=
  { id := "P2", user_id := "lone", date := "2026-03-05", amount := 1,
    type := .sick, timestamp := 9, status := .pending }

/-- C7 fixture: the store with the three users and both pending records. -/
def c7db : LeaveDb :=
  { users := [c7mgr, c7emp, c7lone], leaves := [c7row1, c7row2] }

/-- C7 fixture: the single element `getPendingApprovals c7db "mgr"`
returns. -/
def c7res : PendingLeaveRequest :=
  { row := c7row1, user_name := "Emp", user_email := "emp@x.co" }

/-- C7 witness: the scoping part of `pending_approvals_spec` at the
concrete store: the one returned element is not owned by the manager-less
user. -/
theorem pending_approvals_spec_witness :
    c7res ∈ getPendingApprovals c7db "mgr" ∧ c7res.row.user_id ≠ c7lone.id :=
  ⟨by with_unfolding_all decide,
    (pending_approvals_spec c7db "mgr").2.2 (by with_unfolding_all decide)
      c7lone (by with_unfolding_all decide) rfl c7res
      (by with_unfolding_all decide)⟩
